import Mathlib

/-
Verification development for the customer-interview tool.

The embedding below translates the interview session logic of
src/pages/Interview.tsx (handleSendMessage, startInterviewSession,
processInsights), the analytics aggregation of the dashboard page
(processDataForDisplay) and the process-interview-insights edge function
into executable Lean definitions.  External calls (the database and the
text-generation service) are modelled as explicit inputs: the outcome of
the ai-interviewer call is a parameter of the step function, and database
appends are explicit list appends on the state.  Message ids and
timestamps are dropped: no branch of the translated code reads them.
-/

namespace AiInterviewTool

/-- JS truthiness of an optional string: null or undefined and the empty
string are falsy, every other string is truthy. -/
def jsTruthyStr : Option String → Bool
  | some s => s ≠ ""
  | none => false

/-- Lower-casing of a character list, modelling toLowerCase. -/
def lowerChars (l : List Char) : List Char := l.map Char.toLower

/-- Whitespace trimming on a character list, modelling the trim calls of
the source. -/
def trimChars (l : List Char) : List Char :=
  ((l.dropWhile Char.isWhitespace).reverse.dropWhile Char.isWhitespace).reverse

/-- Model of the JS call s.trim(). -/
def jsTrim (s : String) : String := String.mk (trimChars s.data)

/-- Test that a character list begins with the given pattern. -/
def startsWithChars : List Char → List Char → Bool
  | [], _ => true
  | _ :: _, [] => false
  | p :: ps, c :: cs => p == c && startsWithChars ps cs

/-- Test that the pattern occurs contiguously inside the haystack. -/
def containsChars (pat : List Char) : List Char → Bool
  | [] => pat.isEmpty
  | c :: cs => startsWithChars pat (c :: cs) || containsChars pat cs

/-- Model of the JS expression hay.toLowerCase().includes(needle). -/
def containsLowerCI (hay needle : String) : Bool :=
  containsChars needle.data (lowerChars hay.data)

/-! ## Session state machine (src/pages/Interview.tsx) -/

/-- Sender of a message or conversation row: the source stores the
strings ai and user. -/
inductive Sender where
  | ai
  | user
deriving DecidableEq, Repr

/-- Local chat message (the Message interface; id and timestamp
dropped). -/
structure Message where
  type : Sender
  content : String
deriving DecidableEq, Repr

/-- Row of the conversations table for one interview (sender_type,
content), kept in append order. -/
structure ConvRow where
  sender_type : Sender
  content : String
deriving DecidableEq, Repr

/-- Status column of the interviews row: started or completed. -/
inductive IvStatus where
  | started
  | completed
deriving DecidableEq, Repr

/-- State of one running interview as handleSendMessage sees it:
the local message list, the persisted conversations rows, the
interviews row status, and the interviewConcluded flag. -/
structure InterviewState where
  messages : List Message
  conversations : List ConvRow
  status : IvStatus
  interviewConcluded : Bool
deriving DecidableEq, Repr

/-- Which code path one handleSendMessage call took: the early-return
guard (reply rejected in a wrong state), the normal path, or the catch
block after a failed ai-interviewer call. -/
inductive SendOutcome where
  | invalidState
  | success
  | turnGenFailed
deriving DecidableEq, Repr

/-- Outcome of the ai-interviewer edge call as seen by the client:
either the call resolved with an aiResponse field (possibly absent or
empty), or it failed (functionError or an error field in the body). -/
inductive AiCall where
  | ok (aiResponse : Option String)
  | failed

/-- Closing phrase the termination predicate searches for. -/
def closingPhrase : String := "thank you for your time"

/-- Fallback text used when the ai-interviewer response carries no
aiResponse text. -/
def glitchFallback : String := "Sorry, I had a glitch. Could you repeat that?"

/-- Local fallback apology appended by the catch block of
handleSendMessage. -/
def connectionFallback : String := "I seem to be having some trouble connecting. Please try again in a moment."

/-- Count of user-typed messages in a message list, as computed by
updatedMessages.filter(m.type === user).length in the source. -/
def userMessageCountOf (msgs : List Message) : Nat :=
  (msgs.filter (fun m => m.type == Sender.user)).length

/-- Translation of handleSendMessage.  The guard models the early
return (empty trimmed input or interviewConcluded; the non-null checks
on project, persona and interview id always pass once a session runs).
On the normal path the respondent row is inserted, the agent reply is
computed, both turns are appended locally and to the store, and the
termination predicate runs; the catch block appends the apology message
locally only. -/
def handleSendMessage (st : InterviewState) (currentMessage : String) (call : AiCall) :
    InterviewState × SendOutcome :=
  if jsTrim currentMessage = "" ∨ st.interviewConcluded = true then
    (st, SendOutcome.invalidState)
  else
    let userMsgContent := jsTrim currentMessage
    let userMessage : Message := ⟨Sender.user, userMsgContent⟩
    let stAfterUser : InterviewState :=
      { st with
          messages := st.messages ++ [userMessage],
          conversations := st.conversations ++ [⟨Sender.user, userMsgContent⟩] }
    match call with
    | AiCall.failed =>
        ({ stAfterUser with
             messages := stAfterUser.messages ++ [⟨Sender.ai, connectionFallback⟩] },
         SendOutcome.turnGenFailed)
    | AiCall.ok aiResponse =>
        let aiMsgContent :=
          match aiResponse with
          | some s => if s ≠ "" then s else glitchFallback
          | none => glitchFallback
        let aiMessage : Message := ⟨Sender.ai, aiMsgContent⟩
        let st2 : InterviewState :=
          { stAfterUser with
              messages := stAfterUser.messages ++ [aiMessage],
              conversations := stAfterUser.conversations ++ [⟨Sender.ai, aiMsgContent⟩] }
        let updatedMessages := st.messages ++ [userMessage, aiMessage]
        let userMessageCount := userMessageCountOf updatedMessages
        if 4 ≤ userMessageCount ∨ containsLowerCI aiMsgContent closingPhrase = true then
          ({ st2 with status := IvStatus.completed, interviewConcluded := true },
           SendOutcome.success)
        else
          (st2, SendOutcome.success)

/-- State right after startInterviewSession succeeded: the first agent
question is in the local list and in the conversations table, the
interviews row is started, and the session is not concluded. -/
def initState (firstQuestion : String) : InterviewState :=
  { messages := [⟨Sender.ai, firstQuestion⟩],
    conversations := [⟨Sender.ai, firstQuestion⟩],
    status := IvStatus.started,
    interviewConcluded := false }

/-- Run a sequence of replies in which every ai-interviewer call
succeeds; each list entry is the typed reply and the delivered
aiResponse text. -/
def runOk (st : InterviewState) : List (String × String) → InterviewState
  | [] => st
  | p :: rest => runOk (handleSendMessage st p.1 (AiCall.ok (some p.2))).1 rest

/-- Run a number of replies with the same typed text, every
ai-interviewer call failing. -/
def runFail (st : InterviewState) (t : String) : Nat → InterviewState
  | 0 => st
  | n + 1 => runFail (handleSendMessage st t AiCall.failed).1 t n

/-- Count of respondent rows in the conversations table. -/
def respondentRowCount (rows : List ConvRow) : Nat :=
  (rows.filter (fun r => r.sender_type == Sender.user)).length

/-- Termination check unfolded over a reply trace: with k respondent
turns already accumulated, some step of the trace fires the predicate
(count reaching four, or the delivered agent text containing the closing
phrase). -/
def anyConcl (k : Nat) : List (String × String) → Bool
  | [] => false
  | p :: rest =>
      (decide (4 ≤ k + 1) || containsLowerCI p.2 closingPhrase) || anyConcl (k + 1) rest

/-! ## Insight aggregation (the analytics page, processDataForDisplay) -/

/-- Stored executive summary object (ExecutiveSummaryDB). -/
structure ExecutiveSummaryDB where
  whatWeLearned : Option String
  whatToBuildNext : Option String
deriving DecidableEq, Repr

/-- Stored pain point entry (PainPointDB). -/
structure PainPointDB where
  point : Option String
  severity : Option String
deriving DecidableEq, Repr

/-- Stored quote entry (QuoteDB). -/
structure QuoteDB where
  quote : Option String
  speaker : Option String
  sentiment : Option String
deriving DecidableEq, Repr

/-- Stored objection entry (ObjectionDB). -/
structure ObjectionDB where
  objection : Option String
  objType : Option String
deriving DecidableEq, Repr

/-- Stored product idea entry (ProductIdeaDB). -/
structure ProductIdeaDB where
  idea : Option String
  source : Option String
deriving DecidableEq, Repr

/-- Row of the insights table as the analytics page reads it
(InsightRecord).  Ids and created_at are dropped: the query already
delivers the rows ordered newest first, and the aggregation reads only
the fields below.  The joined project title is inlined. -/
structure InsightRecord where
  summary_text : Option String
  key_learnings : Option ExecutiveSummaryDB
  pain_points : Option (List PainPointDB)
  quotes : Option (List QuoteDB)
  objections : Option (List ObjectionDB)
  product_ideas : Option (List ProductIdeaDB)
  projects_title : Option String
deriving DecidableEq, Repr

/-- One entry of a frequency ranking table.  The source names the text
field point in AggregatedPainPoint and feature in
AggregatedFeatureRequest; both carry the same (text, responses,
frequency) content, so a single structure serves for both. -/
structure RankedItem where
  text : String
  responses : Nat
  frequency : ℚ
deriving DecidableEq, Repr

/-- Push of a truthy severity string, modelling
painPointCounts[point].severities.push(severity). -/
def sevPush (sevs : List String) (sev : Option String) : List String :=
  match sev with
  | some s => if s ≠ "" then sevs ++ [s] else sevs
  | none => sevs

/-- One update of the painPointCounts record: a fresh key is appended at
the end (JS object insertion order), an existing key has its count
incremented and its severity pushed in place. -/
def bumpPain (acc : List (String × Nat × List String)) (k : String) (sev : Option String) :
    List (String × Nat × List String) :=
  match acc with
  | [] => [(k, 1, sevPush [] sev)]
  | e :: rest =>
      if e.1 = k then (e.1, e.2.1 + 1, sevPush e.2.2 sev) :: rest
      else e :: bumpPain rest k sev

/-- One update of the featureCounts record, same insertion-order
semantics with a bare count. -/
def bumpText (acc : List (String × Nat)) (k : String) : List (String × Nat) :=
  match acc with
  | [] => [(k, 1)]
  | e :: rest => if e.1 = k then (e.1, e.2 + 1) :: rest else e :: bumpText rest k

/-- Body of the inner pain point forEach: entries with a truthy point
text bump their key, the rest are skipped. -/
def painStep (acc : List (String × Nat × List String)) (pp : PainPointDB) :
    List (String × Nat × List String) :=
  match pp.point with
  | some s => if s ≠ "" then bumpPain acc s pp.severity else acc
  | none => acc

/-- Body of the inner product idea forEach. -/
def featureStep (acc : List (String × Nat)) (idea : ProductIdeaDB) : List (String × Nat) :=
  match idea.idea with
  | some s => if s ≠ "" then bumpText acc s else acc
  | none => acc

/-- The painPointCounts record built by the nested forEach loops:
every pain point entry with a truthy point text bumps its key. -/
def painPointCounts (insights : List InsightRecord) : List (String × Nat × List String) :=
  insights.foldl (fun acc i => (i.pain_points.getD []).foldl painStep acc) []

/-- The featureCounts record built from product idea texts. -/
def featureCounts (insights : List InsightRecord) : List (String × Nat) :=
  insights.foldl (fun acc i => (i.product_ideas.getD []).foldl featureStep acc) []

/-- Insertion of one element into a list sorted by descending
responses: strictly larger counts are passed over and the element lands
before the first equal or smaller count.  Inserting the earlier element
of a tie this way around keeps encounter order among equal counts,
which is the stable behaviour of the JS sort comparator
(a, b) => b.responses - a.responses. -/
def insDesc (x : RankedItem) : List RankedItem → List RankedItem
  | [] => [x]
  | y :: ys => if x.responses < y.responses then y :: insDesc x ys else x :: y :: ys

/-- Stable sort by descending responses. -/
def sortByResponsesDesc : List RankedItem → List RankedItem
  | [] => []
  | x :: xs => insDesc x (sortByResponsesDesc xs)

/-- The aggregatedPains pipeline: map the counts record to ranking
entries with frequency = count / total records * 100, sort descending by
count, take the top five. -/
def aggregatedPains (insights : List InsightRecord) : List RankedItem :=
  (sortByResponsesDesc
    ((painPointCounts insights).map
      (fun e => ⟨e.1, e.2.1, (e.2.1 : ℚ) / (insights.length : ℚ) * 100⟩))).take 5

/-- The aggregatedFeatures pipeline, same shape over featureCounts. -/
def aggregatedFeatures (insights : List InsightRecord) : List RankedItem :=
  (sortByResponsesDesc
    ((featureCounts insights).map
      (fun e => ⟨e.1, e.2, (e.2 : ℚ) / (insights.length : ℚ) * 100⟩))).take 5

/-- The point text of a pain point entry when it is truthy. -/
def painTextOf (pp : PainPointDB) : Option String :=
  match pp.point with
  | some s => if s ≠ "" then some s else none
  | none => none

/-- The idea text of a product idea entry when it is truthy. -/
def featureTextOf (idea : ProductIdeaDB) : Option String :=
  match idea.idea with
  | some s => if s ≠ "" then some s else none
  | none => none

/-- Truthy pain point texts of one record, in traversal order. -/
def painTexts (i : InsightRecord) : List String :=
  (i.pain_points.getD []).filterMap painTextOf

/-- Truthy product idea texts of one record, in traversal order. -/
def featureTexts (i : InsightRecord) : List String :=
  (i.product_ideas.getD []).filterMap featureTextOf

/-- Counts record for a plain list of text lists. -/
def textCounts (textsPerRecord : List (List String)) : List (String × Nat) :=
  textsPerRecord.foldl (fun acc ts => ts.foldl bumpText acc) []

/-- The one ranking algorithm both tables instantiate: group the texts
by exact match in encounter order, count, attach the frequency formula,
stable sort by descending count, take the top five. -/
def rankingAlgorithm (textsPerRecord : List (List String)) (total : Nat) : List RankedItem :=
  (sortByResponsesDesc
    ((textCounts textsPerRecord).map
      (fun e => ⟨e.1, e.2, (e.2 : ℚ) / (total : ℚ) * 100⟩))).take 5

/-- Keys of a text list in first-encounter order with duplicates
dropped; the spec-side description of grouping by exact match. -/
def dedupFirst (l : List String) : List String :=
  l.foldl (fun acc x => if x ∈ acc then acc else acc ++ [x]) []

/-- Occurrence count of a text in a list. -/
def countOcc (t : String) (l : List String) : Nat :=
  (l.filter (fun s => s = t)).length

/-- Projection of a pain counts entry to its key and count; the
severity list is collected by the source but never read by the
ranking. -/
def projPain (e : String × Nat × List String) : String × Nat := (e.1, e.2.1)

/-- The counts record in spec form: the keys in first-encounter order,
each paired with its occurrence count. -/
def canonCounts (p : List String) : List (String × Nat) :=
  (dedupFirst p).map (fun t => (t, countOcc t p))

/-- The empty string, named so it can be passed as an argument. -/
def emptyText : String := ""

/-- Placeholder text used by the overview counters. -/
def naText : String := "N/A"

/-- The string the JS concatenation of an undefined value produces. -/
def undefinedText : String := "undefined"

/-- Ellipsis appended to truncated texts. -/
def ellipsisText : String := "..."

/-- Fallback project title for a quote without a joined project. -/
def unknownProjectText : String := "Unknown Project"

/-- Respondent label substituted for the speaker User. -/
def intervieweeText : String := "Interviewee"

/-- Speaker value the substitution compares against. -/
def userSpeakerText : String := "User"

/-- Fallback description of a key insight without a project title. -/
def generalInsightText : String := "General Insight"

/-- Impact placeholder of a key insight. -/
def mediumText : String := "medium"

/-- Type tag of a key insight built from a summary. -/
def summaryTypeText : String := "summary"

/-- Quote decorated for display: the stored fields plus the originating
project title and the respondent substitution. -/
structure DisplayQuote where
  quote : Option String
  speaker : Option String
  sentiment : Option String
  project_title : String
  respondent : Option String
deriving DecidableEq, Repr

/-- Key insight card built from a summary text (DisplayKeyInsight; the
type and impact fields always carry summary and medium here). -/
structure DisplayKeyInsight where
  insightType : String
  title : String
  description : String
  impact : String
  project : String
  responses : Nat
deriving DecidableEq, Repr

/-- The overview counters. -/
structure OverviewStats where
  totalInterviews : Nat
  topPainPointText : String
  keyInsightText : String
deriving DecidableEq, Repr

/-- The React state slices processDataForDisplay writes. -/
structure DisplayState where
  executiveSummaryLearned : List String
  executiveSummaryBuild : List String
  topPainPoints : List RankedItem
  topFeatureRequests : List RankedItem
  displayQuotes : List DisplayQuote
  displayKeyInsights : List DisplayKeyInsight
  overviewStats : OverviewStats
deriving DecidableEq, Repr

/-- Model of the JS call s.substring(0, n) (character based). -/
def jsSubstringTo (s : String) (n : Nat) : String := String.mk (s.data.take n)

/-- The keyInsightText expression of the overview counters, including
the JS evaluation when learnedPoints is empty: indexing past the end
gives undefined, the optional chain yields undefined, string
concatenation with the empty second summand renders it as the text
undefined, which is truthy, so the fallback is never reached.  With a
head element the truncated text is produced, the fallback applying only
to an empty concatenation. -/
def keyInsightTextJS (learnedPoints : List String) : String :=
  match learnedPoints.head? with
  | none => undefinedText
  | some s =>
      let t := jsSubstringTo s 50 ++ (if 50 < s.length then ellipsisText else emptyText)
      if t = "" then naText else t

/-- The topPainPointText expression aggregatedPains[0]?.point or the
placeholder. -/
def topPainTextJS (pains : List RankedItem) : String :=
  match pains.head? with
  | none => naText
  | some r => if r.text ≠ "" then r.text else naText

/-- Truthy whatWeLearned text of one record, as the learnedPoints push
guard reads it. -/
def learnedOf (i : InsightRecord) : Option String :=
  match i.key_learnings with
  | some ks =>
      match ks.whatWeLearned with
      | some s => if s ≠ "" then some s else none
      | none => none
  | none => none

/-- Truthy whatToBuildNext text of one record. -/
def buildOf (i : InsightRecord) : Option String :=
  match i.key_learnings with
  | some ks =>
      match ks.whatToBuildNext with
      | some s => if s ≠ "" then some s else none
      | none => none
  | none => none

/-- Display quotes contributed by one record: each truthy quote is
tagged with the project title and the respondent substitution. -/
def quotesOf (i : InsightRecord) : List DisplayQuote :=
  (i.quotes.getD []).filterMap
    (fun q =>
      match q.quote with
      | some s =>
          if s ≠ "" then
            some
              ⟨some s, q.speaker, q.sentiment,
               (match i.projects_title with
                | some t => if t ≠ "" then t else unknownProjectText
                | none => unknownProjectText),
               if q.speaker = some userSpeakerText then some intervieweeText else q.speaker⟩
          else none
      | none => none)

/-- Key insight card of one record with a truthy summary text. -/
def keyInsightOf (i : InsightRecord) : Option DisplayKeyInsight :=
  match i.summary_text with
  | some s =>
      if s ≠ "" then
        some
          ⟨summaryTypeText,
           jsSubstringTo s 100 ++ (if 100 < s.length then ellipsisText else emptyText),
           (match i.projects_title with
            | some t => if t ≠ "" then t else generalInsightText
            | none => generalInsightText),
           mediumText,
           (match i.projects_title with
            | some t => if t ≠ "" then t else naText
            | none => naText),
           1⟩
      else none
  | none => none

/-- Translation of processDataForDisplay.  The previous display state is
passed explicitly: on an empty record list only the overview counters
are reset before the early return, every other state slice keeps its
value.  Otherwise every slice is recomputed from the records. -/
def processDataForDisplay (insights : List InsightRecord) (prev : DisplayState) :
    DisplayState :=
  if insights.length = 0 then
    { prev with overviewStats := ⟨0, naText, naText⟩ }
  else
    let learnedPoints := insights.filterMap learnedOf
    let buildPoints := insights.filterMap buildOf
    let pains := aggregatedPains insights
    let features := aggregatedFeatures insights
    let quotes := insights.foldl (fun acc i => acc ++ quotesOf i) []
    let keyInsightsList := (insights.take 5).filterMap keyInsightOf
    { executiveSummaryLearned := learnedPoints.take 5,
      executiveSummaryBuild := buildPoints.take 5,
      topPainPoints := pains,
      topFeatureRequests := features,
      displayQuotes := quotes.take 5,
      displayKeyInsights := keyInsightsList,
      overviewStats := ⟨insights.length, topPainTextJS pains, keyInsightTextJS learnedPoints⟩ }

/-! ## Insight extraction pipeline (the process-interview-insights edge
function and the processInsights effect of the interview page) -/

/-- Minimal JSON value model for the extraction output. -/
inductive JVal where
  | jnull
  | jbool (b : Bool)
  | jnum (n : ℚ)
  | jstr (s : String)
  | jarr (elems : List JVal)
  | jobj (fields : List (String × JVal))

/-- JS truthiness of a JSON value: null, false, zero and the empty
string are falsy; every array and object is truthy. -/
def jTruthy : JVal → Bool
  | JVal.jnull => false
  | JVal.jbool b => b
  | JVal.jnum n => n ≠ 0
  | JVal.jstr s => s ≠ ""
  | JVal.jarr _ => true
  | JVal.jobj _ => true

/-- First binding of a key in an object field list. -/
def fieldLookup (k : String) : List (String × JVal) → Option JVal
  | [] => none
  | f :: rest => if f.1 = k then some f.2 else fieldLookup k rest

/-- Property access v.k along an optional chain: missing keys and
non-object bases give undefined. -/
def jGet (v : JVal) (k : String) : Option JVal :=
  match v with
  | JVal.jobj fields => fieldLookup k fields
  | _ => none

/-- The JS expression x or-else dflt over an optionally present value:
the default replaces undefined and every falsy value. -/
def jsOrV (v : Option JVal) (dflt : JVal) : JVal :=
  match v with
  | some x => if jTruthy x then x else dflt
  | none => dflt

/-- Truthiness of an optionally present value. -/
def optTruthy (v : Option JVal) : Bool :=
  match v with
  | some x => jTruthy x
  | none => false

/-- The conversation part of the request guard: the field is absent or
the array is empty. -/
def convMissing (c : Option (List JVal)) : Bool :=
  match c with
  | none => true
  | some l => l.isEmpty

/-- Request body of the edge function as its guard reads it; the
conversation is kept abstract, only presence and length matter. -/
structure InsightsRequest where
  productIdea : Option JVal
  founderPersona : Option JVal
  fullConversation : Option (List JVal)

/-- Outcome of the extraction model call: the call threw, it resolved
without content, or it delivered content whose JSON.parse result is
given (none when parsing throws). -/
inductive LlmOutcome where
  | callFailed
  | emptyContent
  | content (parsed : Option JVal)

/-- Response of the edge function: a 200 body, or an error status with
an error message body. -/
inductive EdgeResponse where
  | ok (body : JVal)
  | err (status : Nat) (message : String)

/-- Message of the 400 guard response. -/
def missingFieldsMsg : String := "Missing required fields: productIdea, founderPersona, or fullConversation"

/-- Message standing for the 500 response after a failed model call. -/
def llmFailedMsg : String := "Failed to process interview insights"

/-- Message standing for the 500 response after empty content. -/
def emptyResponseMsg : String := "OpenAI returned an empty response."

/-- Message standing for the 500 response after a JSON.parse failure. -/
def notJsonMsg : String := "OpenAI response was not valid JSON."

/-- Translation of the serve handler of process-interview-insights:
reject incomplete requests with 400, turn every thrown error (model
call failure, empty content, JSON.parse failure) into a 500 error body,
and otherwise return the parsed object verbatim — no shape validation
happens between JSON.parse and the response. -/
def serveProcessInsights (req : InsightsRequest) (llm : LlmOutcome) : EdgeResponse :=
  if (!(optTruthy req.productIdea) || !(optTruthy req.founderPersona) ||
      convMissing req.fullConversation) = true then
    EdgeResponse.err 400 missingFieldsMsg
  else
    match llm with
    | LlmOutcome.callFailed => EdgeResponse.err 500 llmFailedMsg
    | LlmOutcome.emptyContent => EdgeResponse.err 500 emptyResponseMsg
    | LlmOutcome.content none => EdgeResponse.err 500 notJsonMsg
    | LlmOutcome.content (some insights) => EdgeResponse.ok insights

/-- Row the client inserts into the insights table; each field carries
the JSON value the source expression produces. -/
structure InsightInsertRow where
  summary_text : JVal
  key_learnings : JVal
  pain_points : JVal
  quotes : JVal
  objections : JVal
  product_ideas : JVal

/-- Key names used by the insert expressions. -/
def executiveSummaryKey : String := "executiveSummary"

/-- Key of the whatWeLearned summary field. -/
def whatWeLearnedKey : String := "whatWeLearned"

/-- Key of the pain point list. -/
def painPointsKey : String := "painPoints"

/-- Key of the quote list. -/
def notableQuotesKey : String := "notableQuotes"

/-- Key of the objection list. -/
def objectionsKey : String := "objections"

/-- Key of the product idea list. -/
def productIdeasKey : String := "productIdeas"

/-- Key of an error field in a response body. -/
def errorKey : String := "error"

/-- The insert row built from a returned insights object, with the
or-else fallbacks of the source: empty string for the summary text,
empty object for key_learnings, empty arrays for the lists.  No field
of the object is validated and no list is truncated. -/
def buildInsightRow (insights : JVal) : InsightInsertRow :=
  { summary_text :=
      jsOrV (match jGet insights executiveSummaryKey with
             | some es => jGet es whatWeLearnedKey
             | none => none)
        (JVal.jstr emptyText),
    key_learnings := jsOrV (jGet insights executiveSummaryKey) (JVal.jobj []),
    pain_points := jsOrV (jGet insights painPointsKey) (JVal.jarr []),
    quotes := jsOrV (jGet insights notableQuotesKey) (JVal.jarr []),
    objections := jsOrV (jGet insights objectionsKey) (JVal.jarr []),
    product_ideas := jsOrV (jGet insights productIdeasKey) (JVal.jarr []) }

/-- Message the client throws when the response body carries a truthy
error field. -/
def bodyErrorMsg : String := "insights response error"

/-- Translation of the client half of processInsights: a non-2xx
function result or a truthy error field in the body becomes a thrown
error (insightsError is set and nothing is inserted); otherwise the
insert row is built and written. -/
def processInsightsClient (resp : EdgeResponse) : Except String InsightInsertRow :=
  match resp with
  | EdgeResponse.err _ m => Except.error m
  | EdgeResponse.ok insights =>
      if optTruthy (jGet insights errorKey) = true then Except.error bodyErrorMsg
      else Except.ok (buildInsightRow insights)

/-- The extraction run end to end: edge function then client handling. -/
def insightsPipeline (req : InsightsRequest) (llm : LlmOutcome) :
    Except String InsightInsertRow :=
  processInsightsClient (serveProcessInsights req llm)

/-- The insights row a run writes: none when the run ends in an error. -/
def writtenRow : Except String InsightInsertRow → Option InsightInsertRow
  | Except.ok r => some r
  | Except.error _ => none

/-- Length of a JSON array value. -/
def jlen : JVal → Nat
  | JVal.jarr l => l.length
  | _ => 0

/-! ## Concrete inputs used by witnesses and counterexamples -/

/-- Opening question of the demo session. -/
def demoQ : String := "What problem do you face?"

/-- Demo respondent reply. -/
def demoReply : String := "hello"

/-- Demo delivered agent text without the closing phrase. -/
def demoAi : String := "ok"

/-- Four successful demo replies. -/
def demoSteps : List (String × String) :=
  [(demoReply, demoAi), (demoReply, demoAi), (demoReply, demoAi), (demoReply, demoAi)]

/-- A concluded session state. -/
def concludedState : InterviewState := ⟨[], [], IvStatus.completed, true⟩

/-- Pain point text A of the ranking example. -/
def exA : String := "A"

/-- Pain point text B of the ranking example. -/
def exB : String := "B"

/-- Record carrying one pain point with the given text. -/
def exPain (t : String) : InsightRecord := ⟨none, none, some [⟨some t, none⟩], none, none, none, none⟩

/-- The five records of the ranking example, contributing the points
A, A, B, A, B. -/
def exampleRecords : List InsightRecord :=
  [exPain exA, exPain exA, exPain exB, exPain exA, exPain exB]

/-- A record without any whatWeLearned text. -/
def noLearnRecord : InsightRecord := ⟨none, none, none, none, none, none, none⟩

/-- A non-empty record list in which no record carries a whatWeLearned
text. -/
def noLearnRecords : List InsightRecord := [noLearnRecord]

/-- The display state before any data arrived, matching the initial
React state values. -/
def initialDisplay : DisplayState := ⟨[], [], [], [], [], [], ⟨0, naText, naText⟩⟩

/-- Demo product idea of the extraction request. -/
def demoIdeaText : String := "Meal planning app"

/-- Demo persona object. -/
def demoPersona : JVal := JVal.jobj []

/-- Demo conversation entry. -/
def demoConvMsg : JVal := JVal.jstr demoReply

/-- A request that passes the edge-function guard. -/
def demoRequest : InsightsRequest :=
  ⟨some (JVal.jstr demoIdeaText), some demoPersona, some [demoConvMsg]⟩

/-- A parsed extraction output that lacks the painPoints key. -/
def noPainInsights : JVal := JVal.jobj []

/-- Six pain point entries, one more than the advertised cap of five. -/
def sixPoints : List JVal :=
  [JVal.jstr exA, JVal.jstr exA, JVal.jstr exA, JVal.jstr exB, JVal.jstr exB, JVal.jstr exB]

/-- A parsed extraction output with a single top-level field whose pain
point list exceeds the cap. -/
def overCapInsights : JVal := JVal.jobj [(painPointsKey, JVal.jarr sixPoints)]

/-! ## Session state machine lemmas -/

lemma userMessageCountOf_append_pair (msgs : List Message) (a b : String) :
    userMessageCountOf (msgs ++ [⟨Sender.user, a⟩, ⟨Sender.ai, b⟩]) =
      userMessageCountOf msgs + 1 := by
  simp [userMessageCountOf, List.filter_append]

lemma handleSendMessage_concluded (st : InterviewState) (t : String) (c : AiCall)
    (h : st.interviewConcluded = true) :
    handleSendMessage st t c = (st, SendOutcome.invalidState) := by
  simp [handleSendMessage, h]

lemma handleSendMessage_failed (st : InterviewState) (t : String)
    (h1 : st.interviewConcluded = false) (h2 : jsTrim t ≠ "") :
    handleSendMessage st t AiCall.failed =
      ({ st with
           messages := st.messages ++ [⟨Sender.user, jsTrim t⟩, ⟨Sender.ai, connectionFallback⟩],
           conversations := st.conversations ++ [⟨Sender.user, jsTrim t⟩] },
       SendOutcome.turnGenFailed) := by
  simp [handleSendMessage, h1, h2]

lemma handleSendMessage_ok (st : InterviewState) (t a : String)
    (h1 : st.interviewConcluded = false) (h2 : jsTrim t ≠ "") (h3 : a ≠ "") :
    handleSendMessage st t (AiCall.ok (some a)) =
      (if 4 ≤ userMessageCountOf st.messages + 1 ∨ containsLowerCI a closingPhrase = true then
        ({ messages := st.messages ++ [⟨Sender.user, jsTrim t⟩, ⟨Sender.ai, a⟩],
           conversations := st.conversations ++ [⟨Sender.user, jsTrim t⟩, ⟨Sender.ai, a⟩],
           status := IvStatus.completed, interviewConcluded := true },
         SendOutcome.success)
      else
        ({ st with
             messages := st.messages ++ [⟨Sender.user, jsTrim t⟩, ⟨Sender.ai, a⟩],
             conversations := st.conversations ++ [⟨Sender.user, jsTrim t⟩, ⟨Sender.ai, a⟩] },
         SendOutcome.success)) := by
  simp only [handleSendMessage, h1, h2, h3, userMessageCountOf_append_pair,
    List.append_assoc, List.singleton_append, ite_true, ite_false, if_neg, if_pos,
    or_false, false_or, ne_eq, not_false_eq_true]
  split <;> simp_all [List.append_assoc]

lemma runOk_absorb (steps : List (String × String)) :
    ∀ st : InterviewState, st.interviewConcluded = true → runOk st steps = st := by
  induction steps with
  | nil => intro st _; rfl
  | cons p rest ih =>
      intro st h
      rw [runOk, handleSendMessage_concluded st p.1 _ h]
      exact ih st h

lemma runOk_char (steps : List (String × String)) :
    ∀ (st : InterviewState) (k : Nat),
      st.interviewConcluded = false → st.status = IvStatus.started →
      userMessageCountOf st.messages = k →
      (∀ p ∈ steps, jsTrim p.1 ≠ "" ∧ p.2 ≠ "") →
      (runOk st steps).interviewConcluded = anyConcl k steps ∧
      (runOk st steps).status =
        (if anyConcl k steps then IvStatus.completed else IvStatus.started) := by
  induction steps with
  | nil =>
      intro st k h1 h2 _ _
      simp [runOk, anyConcl, h1, h2]
  | cons p rest ih =>
      intro st k h1 h2 hk hsteps
      obtain ⟨hp1, hp2⟩ := hsteps p (List.mem_cons_self p rest)
      have hrest : ∀ q ∈ rest, jsTrim q.1 ≠ "" ∧ q.2 ≠ "" :=
        fun q hq => hsteps q (List.mem_cons_of_mem p hq)
      rw [runOk, handleSendMessage_ok st p.1 p.2 h1 hp1 hp2, hk]
      by_cases hc : 4 ≤ k + 1 ∨ containsLowerCI p.2 closingPhrase = true
      · rw [if_pos hc]
        have habs := runOk_absorb rest
          ({ messages := st.messages ++ [⟨Sender.user, jsTrim p.1⟩, ⟨Sender.ai, p.2⟩],
             conversations := st.conversations ++ [⟨Sender.user, jsTrim p.1⟩, ⟨Sender.ai, p.2⟩],
             status := IvStatus.completed, interviewConcluded := true }) rfl
        have hany : anyConcl k (p :: rest) = true := by
          rw [anyConcl]
          rcases hc with hc | hc
          · simp [hc]
          · simp [hc]
        simp [habs, hany]
      · rw [if_neg hc]
        push_neg at hc
        obtain ⟨hca, hcb⟩ := hc
        have hc1 : ¬ 4 ≤ k + 1 := by omega
        have hc2 : containsLowerCI p.2 closingPhrase = false := by
          cases hcc : containsLowerCI p.2 closingPhrase
          · rfl
          · exact absurd hcc hcb
        have hany : anyConcl k (p :: rest) = anyConcl (k + 1) rest := by
          rw [anyConcl]
          simp [hc1, hc2]
        rw [hany]
        exact ih _ (k + 1) h1 h2 (by rw [userMessageCountOf_append_pair, hk]) hrest

lemma anyConcl_iff (steps : List (String × String)) :
    ∀ k : Nat,
      anyConcl k steps = true ↔
        ∃ j, ∃ hj : j < steps.length,
          4 ≤ k + j + 1 ∨ containsLowerCI (steps.get ⟨j, hj⟩).2 closingPhrase = true := by
  induction steps with
  | nil => intro k; simp [anyConcl]
  | cons p rest ih =>
      intro k
      rw [anyConcl]
      constructor
      · intro h
        rcases Bool.or_eq_true_iff.mp h with h | h
        · refine ⟨0, by simp, ?_⟩
          rcases Bool.or_eq_true_iff.mp h with h | h
          · have hk4 : 4 ≤ k + 1 := of_decide_eq_true h
            exact Or.inl (by omega)
          · exact Or.inr h
        · obtain ⟨j, hj, hcond⟩ := (ih (k + 1)).mp h
          refine ⟨j + 1, by simpa using Nat.succ_lt_succ hj, ?_⟩
          rcases hcond with hcond | hcond
          · exact Or.inl (by omega)
          · exact Or.inr hcond
      · rintro ⟨j, hj, hcond⟩
        cases j with
        | zero =>
            apply Bool.or_eq_true_iff.mpr
            left
            apply Bool.or_eq_true_iff.mpr
            rcases hcond with hcond | hcond
            · exact Or.inl (decide_eq_true (by omega))
            · exact Or.inr hcond
        | succ j =>
            apply Bool.or_eq_true_iff.mpr
            right
            refine (ih (k + 1)).mpr ⟨j, by simpa using Nat.lt_of_succ_lt_succ hj, ?_⟩
            rcases hcond with hcond | hcond
            · exact Or.inl (by omega)
            · exact Or.inr (by simpa using hcond)

/-! ## Claim theorems for the session state machine -/

/-- C1: starting from an in-progress session with one agent question, a
trace of successful replies leaves the session concluded exactly when
some reply j (zero-based) satisfies the termination predicate at the
count it produces — respondent-turn count j + 1 reaching four or the
delivered agent text containing the closing phrase case-insensitively;
for every trace missing such a step the session stays in progress, so
conclusion happens deterministically on the first satisfying step.  The
interviews row is completed exactly when the session concluded. -/
theorem submitReply_concludes_iff (q : String) (steps : List (String × String))
    (hsteps : ∀ p ∈ steps, jsTrim p.1 ≠ "" ∧ p.2 ≠ "") :
    ((runOk (initState q) steps).interviewConcluded = true ↔
      ∃ j, ∃ hj : j < steps.length,
        4 ≤ j + 1 ∨ containsLowerCI (steps.get ⟨j, hj⟩).2 closingPhrase = true) ∧
    ((runOk (initState q) steps).status = IvStatus.completed ↔
      (runOk (initState q) steps).interviewConcluded = true) := by
  have hchar := runOk_char steps (initState q) 0 rfl rfl (by rfl) hsteps
  constructor
  · rw [hchar.1]
    have := anyConcl_iff steps 0
    simpa using this
  · rw [hchar.1, hchar.2]
    by_cases h : anyConcl 0 steps <;> simp [h]

/-- Witness for C1 at four successful replies: the fourth reply
concludes the session. -/
theorem submitReply_concludes_iff_witness :
    (runOk (initState demoQ) demoSteps).interviewConcluded = true :=
  (submitReply_concludes_iff demoQ demoSteps (by decide)).1.mpr
    ⟨3, by decide, Or.inl (by decide)⟩

/-- C2: a reply submitted on a concluded session takes the early-return
rejection path: the outcome is the invalid-state rejection and the state
is unchanged, so no turn is appended to the local message list or to the
conversations store. -/
theorem submitReply_after_concluded_rejected (st : InterviewState) (t : String) (c : AiCall)
    (h : st.interviewConcluded = true) :
    handleSendMessage st t c = (st, SendOutcome.invalidState) :=
  handleSendMessage_concluded st t c h

/-- Witness for C2 at a concrete concluded state. -/
theorem submitReply_after_concluded_rejected_witness :
    handleSendMessage concludedState demoReply (AiCall.ok (some demoAi)) =
      (concludedState, SendOutcome.invalidState) :=
  submitReply_after_concluded_rejected concludedState demoReply (AiCall.ok (some demoAi)) rfl

/-- C7: when the turn-generation call fails, the session stays
unconcluded with its status untouched, the apology turn is appended to
the local message list only (the conversations store receives just the
respondent turn), and a subsequent non-empty reply is not rejected. -/
theorem submitReply_failure_recovery (st : InterviewState) (t : String)
    (h1 : st.interviewConcluded = false) (h2 : jsTrim t ≠ "") :
    handleSendMessage st t AiCall.failed =
      ({ st with
           messages := st.messages ++ [⟨Sender.user, jsTrim t⟩, ⟨Sender.ai, connectionFallback⟩],
           conversations := st.conversations ++ [⟨Sender.user, jsTrim t⟩] },
       SendOutcome.turnGenFailed) ∧
    (∀ t2 : String, jsTrim t2 ≠ "" → ∀ c : AiCall,
      (handleSendMessage (handleSendMessage st t AiCall.failed).1 t2 c).2 ≠
        SendOutcome.invalidState) := by
  have hstep := handleSendMessage_failed st t h1 h2
  refine ⟨hstep, ?_⟩
  intro t2 ht2 c
  rw [hstep]
  cases c with
  | failed =>
      rw [handleSendMessage_failed _ t2 (by exact h1) ht2]
      simp
  | ok aiResponse =>
      simp only [handleSendMessage, ht2, h1]
      split
      · simp_all
      · split <;> simp

/-- Witness for C7: the failed call on the demo session takes the
recovery path. -/
theorem submitReply_failure_recovery_witness :
    (handleSendMessage (initState demoQ) demoReply AiCall.failed).2 =
      SendOutcome.turnGenFailed := by
  rw [(submitReply_failure_recovery (initState demoQ) demoReply rfl (by decide)).1]

/-- C9 helper: a run of failing replies keeps the session unconcluded
with unchanged status while appending one respondent row per reply. -/
lemma runFail_inv (t : String) (ht : jsTrim t ≠ "") :
    ∀ (n : Nat) (st : InterviewState), st.interviewConcluded = false →
      (runFail st t n).interviewConcluded = false ∧
      (runFail st t n).status = st.status ∧
      respondentRowCount (runFail st t n).conversations =
        respondentRowCount st.conversations + n := by
  intro n
  induction n with
  | zero => intro st h; exact ⟨h, rfl, rfl⟩
  | succ n ih =>
      intro st h
      rw [runFail, handleSendMessage_failed st t h ht]
      obtain ⟨ih1, ih2, ih3⟩ := ih
        { st with
            messages := st.messages ++ [⟨Sender.user, jsTrim t⟩, ⟨Sender.ai, connectionFallback⟩],
            conversations := st.conversations ++ [⟨Sender.user, jsTrim t⟩] } h
      refine ⟨ih1, ih2, ?_⟩
      rw [ih3]
      simp only [respondentRowCount, List.filter_append]
      simp [respondentRowCount]
      omega

/-- C9: a failed turn generation does not roll back the respondent turn
persisted at the start of the call — the conversations store grows by
exactly that one respondent row and no agent row — and iterating the
failure from a fresh session yields any number of persisted respondent
rows, four included, while the session is still in progress. -/
theorem failed_reply_keeps_persisted_turn (t : String) (ht : jsTrim t ≠ "") :
    (∀ st : InterviewState, st.interviewConcluded = false →
      (handleSendMessage st t AiCall.failed).1.conversations =
        st.conversations ++ [⟨Sender.user, jsTrim t⟩]) ∧
    (∀ (q : String) (n : Nat),
      respondentRowCount (runFail (initState q) t n).conversations = n ∧
      (runFail (initState q) t n).interviewConcluded = false ∧
      (runFail (initState q) t n).status = IvStatus.started) := by
  constructor
  · intro st h
    rw [handleSendMessage_failed st t h ht]
  · intro q n
    obtain ⟨h1, h2, h3⟩ := runFail_inv t ht n (initState q) rfl
    refine ⟨?_, h1, h2.trans rfl⟩
    rw [h3]
    simp [initState, respondentRowCount]

/-- Witness for C9: four failing replies leave four persisted
respondent rows on a session that is still in progress. -/
theorem failed_reply_keeps_persisted_turn_witness :
    respondentRowCount (runFail (initState demoQ) demoReply 4).conversations = 4 ∧
    (runFail (initState demoQ) demoReply 4).interviewConcluded = false ∧
    (runFail (initState demoQ) demoReply 4).status = IvStatus.started :=
  (failed_reply_keeps_persisted_turn demoReply (by decide)).2 demoQ 4

/-! ## Aggregation lemmas -/

lemma bumpPain_proj (k : String) (sev : Option String) :
    ∀ acc : List (String × Nat × List String),
      (bumpPain acc k sev).map projPain = bumpText (acc.map projPain) k := by
  intro acc
  induction acc with
  | nil => rfl
  | cons e rest ih =>
      by_cases h : e.1 = k
      · simp [bumpPain, bumpText, projPain, h]
      · simp [bumpPain, bumpText, projPain, h, ih]

lemma painFold_proj (pps : List PainPointDB) :
    ∀ acc, ((pps.foldl painStep acc).map projPain) =
      (pps.filterMap painTextOf).foldl bumpText (acc.map projPain) := by
  induction pps with
  | nil => intro acc; rfl
  | cons pp rest ih =>
      intro acc
      cases hp : pp.point with
      | none => simp [painStep, painTextOf, hp, List.filterMap_cons, ih]
      | some s =>
          by_cases hs : s = ""
          · simp [painStep, painTextOf, hp, hs, List.filterMap_cons, ih]
          · simp [painStep, painTextOf, hp, hs, List.filterMap_cons, ih, bumpPain_proj]

lemma featureFold_texts (ideas : List ProductIdeaDB) :
    ∀ acc, ideas.foldl featureStep acc = (ideas.filterMap featureTextOf).foldl bumpText acc := by
  induction ideas with
  | nil => intro acc; rfl
  | cons idea rest ih =>
      intro acc
      cases hp : idea.idea with
      | none => simp [featureStep, featureTextOf, hp, List.filterMap_cons, ih]
      | some s =>
          by_cases hs : s = ""
          · simp [featureStep, featureTextOf, hp, hs, List.filterMap_cons, ih]
          · simp [featureStep, featureTextOf, hp, hs, List.filterMap_cons, ih]

lemma featureCounts_eq_textCounts (insights : List InsightRecord) :
    featureCounts insights = textCounts (insights.map featureTexts) := by
  unfold featureCounts textCounts
  rw [List.foldl_map]
  have hgen :
      ∀ (l : List InsightRecord) (acc : List (String × Nat)),
        l.foldl (fun acc2 i2 => (i2.product_ideas.getD []).foldl featureStep acc2) acc =
          l.foldl (fun acc2 i2 => (featureTexts i2).foldl bumpText acc2) acc := by
    intro l
    induction l with
    | nil => intro acc; rfl
    | cons j rest2 ih2 =>
        intro acc
        simp only [List.foldl_cons]
        rw [featureFold_texts]
        exact ih2 _
  exact hgen insights []

lemma painPointCounts_proj (insights : List InsightRecord) :
    (painPointCounts insights).map projPain = textCounts (insights.map painTexts) := by
  unfold painPointCounts textCounts
  rw [List.foldl_map]
  have hgen :
      ∀ (l : List InsightRecord) (acc : List (String × Nat × List String)),
        ((l.foldl (fun acc2 i2 => (i2.pain_points.getD []).foldl painStep acc2) acc).map projPain) =
          l.foldl (fun acc2 i2 => (painTexts i2).foldl bumpText acc2) (acc.map projPain) := by
    intro l
    induction l with
    | nil => intro acc; rfl
    | cons j rest2 ih2 =>
        intro acc
        simp only [List.foldl_cons]
        rw [ih2, painFold_proj]
        rfl
  exact hgen insights []

lemma aggregatedFeatures_eq_ranking (insights : List InsightRecord) :
    aggregatedFeatures insights = rankingAlgorithm (insights.map featureTexts) insights.length := by
  unfold aggregatedFeatures rankingAlgorithm
  rw [featureCounts_eq_textCounts]

lemma aggregatedPains_eq_ranking (insights : List InsightRecord) :
    aggregatedPains insights = rankingAlgorithm (insights.map painTexts) insights.length := by
  unfold aggregatedPains rankingAlgorithm
  rw [← painPointCounts_proj, List.map_map]
  rfl

lemma mem_dedupFoldl (l : List String) :
    ∀ (acc : List String) (y : String),
      (y ∈ l.foldl (fun acc2 x => if x ∈ acc2 then acc2 else acc2 ++ [x]) acc) ↔
        y ∈ acc ∨ y ∈ l := by
  induction l with
  | nil => intro acc y; simp
  | cons x rest ih =>
      intro acc y
      simp only [List.foldl_cons]
      rw [ih]
      by_cases h : x ∈ acc
      · simp only [if_pos h, List.mem_cons]
        constructor
        · rintro (hy | hy)
          · exact Or.inl hy
          · exact Or.inr (Or.inr hy)
        · rintro (hy | hy | hy)
          · exact Or.inl hy
          · exact Or.inl (hy ▸ h)
          · exact Or.inr hy
      · simp only [if_neg h, List.mem_append, List.mem_singleton, List.mem_cons]
        tauto

lemma mem_dedupFirst (y : String) (l : List String) : y ∈ dedupFirst l ↔ y ∈ l := by
  unfold dedupFirst
  rw [mem_dedupFoldl]
  simp

lemma nodup_dedupFoldl (l : List String) :
    ∀ acc : List String, acc.Nodup →
      (l.foldl (fun acc2 x => if x ∈ acc2 then acc2 else acc2 ++ [x]) acc).Nodup := by
  induction l with
  | nil => intro acc h; exact h
  | cons x rest ih =>
      intro acc h
      simp only [List.foldl_cons]
      by_cases hx : x ∈ acc
      · rw [if_pos hx]; exact ih acc h
      · rw [if_neg hx]
        refine ih (acc ++ [x]) ?_
        rw [List.nodup_append]
        exact ⟨h, List.nodup_singleton x, by simpa using hx⟩

lemma nodup_dedupFirst (l : List String) : (dedupFirst l).Nodup :=
  nodup_dedupFoldl l [] List.nodup_nil

lemma dedupFirst_append_singleton (p : List String) (x : String) :
    dedupFirst (p ++ [x]) =
      if x ∈ dedupFirst p then dedupFirst p else dedupFirst p ++ [x] := by
  unfold dedupFirst
  rw [List.foldl_append]
  rfl

lemma countOcc_append_singleton (t : String) (p : List String) (x : String) :
    countOcc t (p ++ [x]) = countOcc t p + (if x = t then 1 else 0) := by
  unfold countOcc
  rw [List.filter_append]
  by_cases h : x = t <;> simp [h]

lemma countOcc_eq_zero (x : String) (p : List String) (h : x ∉ p) : countOcc x p = 0 := by
  unfold countOcc
  have : p.filter (fun s => decide (s = x)) = [] := by
    apply List.filter_eq_nil_iff.mpr
    intro a ha
    simp only [decide_eq_true_eq]
    exact fun he => h (he ▸ ha)
  simp [this]

lemma bumpText_map_not_mem (g : String → Nat) (x : String) :
    ∀ ks : List String, x ∉ ks →
      bumpText (ks.map (fun t => (t, g t))) x = ks.map (fun t => (t, g t)) ++ [(x, 1)] := by
  intro ks
  induction ks with
  | nil => intro _; rfl
  | cons k rest ih =>
      intro h
      have hk : ¬ k = x := fun he => h (he ▸ List.mem_cons_self k rest)
      have hr : x ∉ rest := fun hm => h (List.mem_cons_of_mem k hm)
      simp [bumpText, hk, ih hr]

lemma bumpText_map_mem (g : String → Nat) (x : String) :
    ∀ ks : List String, ks.Nodup → x ∈ ks →
      bumpText (ks.map (fun t => (t, g t))) x =
        ks.map (fun t => (t, g t + if x = t then 1 else 0)) := by
  intro ks
  induction ks with
  | nil => intro _ h; exact absurd h (List.not_mem_nil x)
  | cons k rest ih =>
      intro hnd hx
      rcases List.nodup_cons.mp hnd with ⟨hknr, hndr⟩
      by_cases hk : k = x
      · subst hk
        have hrest : rest.map (fun t => (t, g t + if k = t then 1 else 0)) =
            rest.map (fun t => (t, g t)) := by
          apply List.map_congr_left
          intro t ht
          have : ¬ k = t := fun he => hknr (he ▸ ht)
          simp [this]
        simp [bumpText, hrest]
      · have hxr : x ∈ rest := by
          rcases List.mem_cons.mp hx with he | hm
          · exact absurd he.symm hk
          · exact hm
        have hxk : ¬ x = k := fun he => hk he.symm
        simp [bumpText, hk, ih hndr hxr, hxk]

lemma bump_canon (p : List String) (x : String) :
    bumpText (canonCounts p) x = canonCounts (p ++ [x]) := by
  unfold canonCounts
  rw [dedupFirst_append_singleton]
  by_cases h : x ∈ dedupFirst p
  · rw [if_pos h, bumpText_map_mem (fun t => countOcc t p) x (dedupFirst p) (nodup_dedupFirst p) h]
    apply List.map_congr_left
    intro t _
    rw [countOcc_append_singleton]
  · rw [if_neg h, bumpText_map_not_mem (fun t => countOcc t p) x (dedupFirst p) h,
      List.map_append]
    congr 1
    · apply List.map_congr_left
      intro t ht
      have hxt : ¬ x = t := fun he => h (he ▸ ht)
      rw [countOcc_append_singleton, if_neg hxt, Nat.add_zero]
    · have hx : x ∉ p := fun hp => h ((mem_dedupFirst x p).mpr hp)
      simp [countOcc_append_singleton, countOcc_eq_zero x p hx]

lemma foldl_bump_canon (l : List String) :
    ∀ p, l.foldl bumpText (canonCounts p) = canonCounts (p ++ l) := by
  induction l with
  | nil => intro p; simp
  | cons x rest ih =>
      intro p
      rw [List.foldl_cons, bump_canon, ih]
      simp

lemma foldl_textCounts_join (tpr : List (List String)) :
    ∀ acc, tpr.foldl (fun a ts => ts.foldl bumpText a) acc = (tpr.flatten).foldl bumpText acc := by
  induction tpr with
  | nil => intro acc; rfl
  | cons ts rest ih =>
      intro acc
      simp only [List.foldl_cons, List.flatten_cons, List.foldl_append]
      exact ih _

lemma textCounts_eq_canon (tpr : List (List String)) :
    textCounts tpr = canonCounts tpr.flatten := by
  unfold textCounts
  rw [foldl_textCounts_join]
  have h := foldl_bump_canon tpr.flatten []
  simpa using h

lemma mem_insDesc (x b : RankedItem) :
    ∀ l, b ∈ insDesc x l → b = x ∨ b ∈ l := by
  intro l
  induction l with
  | nil =>
      intro h
      simp only [insDesc, List.mem_singleton] at h
      exact Or.inl h
  | cons y ys ih =>
      intro h
      by_cases hc : x.responses < y.responses
      · simp only [insDesc, if_pos hc, List.mem_cons] at h
        rcases h with h | h
        · exact Or.inr (List.mem_cons.mpr (Or.inl h))
        · rcases ih h with h1 | h1
          · exact Or.inl h1
          · exact Or.inr (List.mem_cons_of_mem y h1)
      · simp only [insDesc, if_neg hc, List.mem_cons] at h
        rcases h with h | h
        · exact Or.inl h
        · exact Or.inr (List.mem_cons.mpr h)

lemma pairwise_insDesc (x : RankedItem) :
    ∀ l, l.Pairwise (fun a b => b.responses ≤ a.responses) →
      (insDesc x l).Pairwise (fun a b => b.responses ≤ a.responses) := by
  intro l
  induction l with
  | nil => intro _; simp [insDesc]
  | cons y ys ih =>
      intro hp
      rcases List.pairwise_cons.mp hp with ⟨hy, hys⟩
      by_cases hc : x.responses < y.responses
      · simp only [insDesc, if_pos hc]
        apply List.pairwise_cons.mpr
        refine ⟨?_, ih hys⟩
        intro b hb
        rcases mem_insDesc x b ys hb with rfl | hb
        · omega
        · exact hy b hb
      · simp only [insDesc, if_neg hc]
        apply List.pairwise_cons.mpr
        refine ⟨?_, hp⟩
        intro b hb
        rcases List.mem_cons.mp hb with rfl | hb
        · omega
        · have := hy b hb; omega

lemma sorted_sortByResponsesDesc (l : List RankedItem) :
    (sortByResponsesDesc l).Pairwise (fun a b => b.responses ≤ a.responses) := by
  induction l with
  | nil => simp [sortByResponsesDesc]
  | cons x xs ih => exact pairwise_insDesc x (sortByResponsesDesc xs) ih

lemma filter_insDesc (x : RankedItem) (n : Nat) :
    ∀ l : List RankedItem,
      (insDesc x l).filter (fun y => decide (y.responses = n)) =
        (if x.responses = n then
          x :: l.filter (fun y => decide (y.responses = n))
        else l.filter (fun y => decide (y.responses = n))) := by
  intro l
  induction l with
  | nil =>
      by_cases hx : x.responses = n <;> simp [insDesc, List.filter_cons, hx]
  | cons y ys ih =>
      by_cases hc : x.responses < y.responses
      · simp only [insDesc, if_pos hc, List.filter_cons, ih]
        by_cases hx : x.responses = n <;> by_cases hy : y.responses = n
        · omega
        · simp [hx, hy]
        · simp [hx, hy]
        · simp [hx, hy]
      · simp only [insDesc, if_neg hc, List.filter_cons]
        by_cases hx : x.responses = n <;> simp [hx]

lemma filter_sortByResponsesDesc (n : Nat) :
    ∀ l : List RankedItem,
      (sortByResponsesDesc l).filter (fun y => decide (y.responses = n)) =
        l.filter (fun y => decide (y.responses = n)) := by
  intro l
  induction l with
  | nil => rfl
  | cons x xs ih =>
      show (insDesc x (sortByResponsesDesc xs)).filter (fun y => decide (y.responses = n)) = _
      rw [filter_insDesc x n (sortByResponsesDesc xs), ih]
      by_cases hx : x.responses = n <;> simp [List.filter_cons, hx]

/-! ## Claim theorems for the aggregation -/

/-- C8: the feature-request table and the pain-point table are the same
ranking algorithm — grouping by exact text, occurrence counting, the
frequency formula, the stable descending sort and the top-five cut —
instantiated at the feature-idea texts and at the pain-point texts. -/
theorem feature_ranking_matches_pain_ranking :
    (∀ insights : List InsightRecord,
      aggregatedFeatures insights =
        rankingAlgorithm (insights.map featureTexts) insights.length) ∧
    (∀ insights : List InsightRecord,
      aggregatedPains insights =
        rankingAlgorithm (insights.map painTexts) insights.length) :=
  ⟨aggregatedFeatures_eq_ranking, aggregatedPains_eq_ranking⟩

/-- C5: the pain-point ranking groups points by exact text in
first-encounter order, counts occurrences, attaches frequency =
occurrences / record total * 100, sorts by descending count with a sort
that is ordered and stable (the items of any fixed count keep their
relative order), and takes the top five; on five records contributing
the points A, A, B, A, B it returns A with count three at sixty percent
before B with count two at forty percent. -/
theorem pain_ranking_spec :
    (∀ insights : List InsightRecord,
      aggregatedPains insights =
        (sortByResponsesDesc
          ((dedupFirst ((insights.map painTexts).flatten)).map
            (fun t =>
              ⟨t, countOcc t ((insights.map painTexts).flatten),
                (countOcc t ((insights.map painTexts).flatten) : ℚ) /
                  (insights.length : ℚ) * 100⟩))).take 5) ∧
    (∀ l : List RankedItem,
      (sortByResponsesDesc l).Pairwise (fun a b => b.responses ≤ a.responses)) ∧
    (∀ (l : List RankedItem) (n : Nat),
      (sortByResponsesDesc l).filter (fun y => decide (y.responses = n)) =
        l.filter (fun y => decide (y.responses = n))) ∧
    aggregatedPains exampleRecords = [⟨exA, 3, 60⟩, ⟨exB, 2, 40⟩] := by
  refine ⟨?_, sorted_sortByResponsesDesc, fun l n => filter_sortByResponsesDesc n l, ?_⟩
  · intro insights
    rw [aggregatedPains_eq_ranking]
    unfold rankingAlgorithm
    rw [textCounts_eq_canon]
    unfold canonCounts
    rw [List.map_map]
    rfl
  · have h0 : aggregatedPains exampleRecords =
        [⟨exA, 3, ((3 : ℕ) : ℚ) / ((5 : ℕ) : ℚ) * 100⟩,
         ⟨exB, 2, ((2 : ℕ) : ℚ) / ((5 : ℕ) : ℚ) * 100⟩] := rfl
    rw [h0]
    simp only [List.cons.injEq, RankedItem.mk.injEq, and_true, true_and]
    norm_num

/-- C6: aggregation applied to an empty record list resets the overview
counters to total zero and the placeholder texts and changes nothing
else; it is a total function, so it never throws. -/
theorem aggregation_empty_safe :
    ∀ prev : DisplayState,
      processDataForDisplay [] prev = { prev with overviewStats := ⟨0, naText, naText⟩ } := by
  intro prev
  rfl

/-- C10: on a non-empty record list in which no record carries a truthy
whatWeLearned text, the key-learning overview counter is the literal
text undefined, not the placeholder: the undefined head of the empty
learned list is string-concatenated before the fallback is tested. -/
theorem keyInsight_undefined_when_no_learnings (insights : List InsightRecord)
    (prev : DisplayState) (h1 : insights ≠ [])
    (h2 : ∀ i ∈ insights, learnedOf i = none) :
    (processDataForDisplay insights prev).overviewStats.keyInsightText = undefinedText := by
  have hlen : ¬ insights.length = 0 := fun h => h1 (List.length_eq_zero.mp h)
  have hlp : insights.filterMap learnedOf = [] := List.filterMap_eq_nil_iff.mpr h2
  unfold processDataForDisplay
  rw [if_neg hlen]
  simp [hlp, keyInsightTextJS]

/-- Witness for C10 at one record without learnings. -/
theorem keyInsight_undefined_when_no_learnings_witness :
    (processDataForDisplay noLearnRecords initialDisplay).overviewStats.keyInsightText =
      undefinedText :=
  keyInsight_undefined_when_no_learnings noLearnRecords initialDisplay (by decide) (by decide)

/-! ## Claim theorems for the extraction pipeline -/

/-- C3 counterexample: a parsed extraction output that lacks the
painPoints key is not rejected — the run ends with an insights row
written, its pain point list defaulted to the empty array. -/
theorem extraction_missing_painPoints_accepted :
    writtenRow (insightsPipeline demoRequest (LlmOutcome.content (some noPainInsights))) =
      some
        { summary_text := JVal.jstr emptyText,
          key_learnings := JVal.jobj [],
          pain_points := JVal.jarr [],
          quotes := JVal.jarr [],
          objections := JVal.jarr [],
          product_ideas := JVal.jarr [] } := rfl

/-- C3 amended: the extraction run fails — error surfaced, no insights
row written — when the model call fails, the content is empty, or the
content is not parseable JSON; a successfully parsed object with a falsy
error field is always accepted and written, its missing fields replaced
by fallbacks, with no JSON-shape validation: in particular a missing
painPoints key yields an empty stored pain point list rather than an
error. -/
theorem extraction_failure_boundary :
    (∀ req : InsightsRequest,
      writtenRow (insightsPipeline req LlmOutcome.callFailed) = none) ∧
    (∀ req : InsightsRequest,
      writtenRow (insightsPipeline req LlmOutcome.emptyContent) = none) ∧
    (∀ req : InsightsRequest,
      writtenRow (insightsPipeline req (LlmOutcome.content none)) = none) ∧
    (∀ (req : InsightsRequest) (v : JVal),
      (!(optTruthy req.productIdea) || !(optTruthy req.founderPersona) ||
        convMissing req.fullConversation) = false →
      optTruthy (jGet v errorKey) = false →
      insightsPipeline req (LlmOutcome.content (some v)) = Except.ok (buildInsightRow v)) ∧
    (∀ v : JVal, jGet v painPointsKey = none →
      (buildInsightRow v).pain_points = JVal.jarr []) := by
  refine ⟨?_, ?_, ?_, ?_, ?_⟩
  · intro req
    unfold insightsPipeline serveProcessInsights
    split <;> rfl
  · intro req
    unfold insightsPipeline serveProcessInsights
    split <;> rfl
  · intro req
    unfold insightsPipeline serveProcessInsights
    split <;> rfl
  · intro req v hreq herr
    simp [insightsPipeline, serveProcessInsights, processInsightsClient, hreq, herr]
  · intro v h
    simp [buildInsightRow, h, jsOrV]

/-- Witness for the amended C3: the demo request with an output lacking
painPoints takes the accepted branch. -/
theorem extraction_failure_boundary_witness :
    insightsPipeline demoRequest (LlmOutcome.content (some noPainInsights)) =
      Except.ok (buildInsightRow noPainInsights) :=
  extraction_failure_boundary.2.2.2.1 demoRequest noPainInsights rfl rfl

/-- C4 counterexample: an insight object with a single top-level field
whose pain point list holds six entries — violating both the
exactly-five-fields shape and the five-item cap — is accepted and
stored with all six entries. -/
theorem over_cap_insights_accepted :
    writtenRow (insightsPipeline demoRequest (LlmOutcome.content (some overCapInsights))) =
      some (buildInsightRow overCapInsights) ∧
    jlen (buildInsightRow overCapInsights).pain_points = 6 :=
  ⟨rfl, rfl⟩

/-- C4 amended: the pipeline enforces no field set and no list caps —
the advertised limits live only in the model prompt.  Every parsed
object with a falsy error field is accepted; a present painPoints or
productIdeas array is stored unchanged whatever its length, and a
missing one defaults to empty. -/
theorem no_shape_or_cap_enforcement :
    (∀ (req : InsightsRequest) (v : JVal),
      (!(optTruthy req.productIdea) || !(optTruthy req.founderPersona) ||
        convMissing req.fullConversation) = false →
      optTruthy (jGet v errorKey) = false →
      writtenRow (insightsPipeline req (LlmOutcome.content (some v))) =
        some (buildInsightRow v)) ∧
    (∀ (v : JVal) (l : List JVal), jGet v painPointsKey = some (JVal.jarr l) →
      (buildInsightRow v).pain_points = JVal.jarr l) ∧
    (∀ (v : JVal) (l : List JVal), jGet v productIdeasKey = some (JVal.jarr l) →
      (buildInsightRow v).product_ideas = JVal.jarr l) := by
  refine ⟨?_, ?_, ?_⟩
  · intro req v hreq herr
    simp [insightsPipeline, serveProcessInsights, processInsightsClient, writtenRow, hreq, herr]
  · intro v l h
    simp [buildInsightRow, h, jsOrV, jTruthy]
  · intro v l h
    simp [buildInsightRow, h, jsOrV, jTruthy]

/-- Witness for the amended C4: the six-entry pain point list is stored
unchanged. -/
theorem no_shape_or_cap_enforcement_witness :
    (buildInsightRow overCapInsights).pain_points = JVal.jarr sixPoints :=
  no_shape_or_cap_enforcement.2.1 overCapInsights sixPoints rfl

end AiInterviewTool
